import Mathlib

/-!
# European vanilla Monte Carlo pricer and finite-difference Greeks

A shallow embedding of `Euro_vanilla_MC.cpp` and `euro_Greeks.cpp`.

## Modelling conventions

* `double` arithmetic is interpreted as exact arithmetic in a linear ordered
  field `α`; rounding and overflow are outside the model.  The definitions are
  generic and computable; theorems that use properties of `exp`, `sqrt` or `log`
  are stated at `α = ℝ` with the real functions.
* A `double` that has no real value (the `NaN` the C++ code produces when it
  divides by zero, takes the logarithm of zero or the square root of a negative
  number) is `none : Option α`.  Every use of such a value in the source
  propagates it (`std::max(a, 0.0)` returns `a` when `a` is `NaN`), so the
  operations are lifted with `Option.bind` and `Option.map`.
* `exp`, `sqrt`, `log` come from `<cmath>`; they are parameters of the model,
  wrapped by the guards `fsqrt` and `flog` on their domain.
* `rand()` reads a hidden global generator.  Its successive outputs form a
  stream `u : ℕ → ℕ`; the generator state is the position in that stream.
  `RAND_MAX` comes from `<cstdlib>` and is a parameter.
* The `do … while` rejection loop may run forever; it is given a `fuel`
  budget and `none` (outermost `Option`) means the budget was exhausted.
-/

namespace EuroVanillaMC

section Model

variable {α : Type} [LinearOrderedField α]

/-- Division of doubles: no real value when the divisor is zero. -/
def fdiv (a b : α) : Option α :=
  if b = 0 then none else some (a / b)

/-- Square root of `<cmath>`: no real value for a negative argument. -/
def fsqrt (sqrt : α → α) (a : α) : Option α :=
  if a < 0 then none else some (sqrt a)

/-- Logarithm of `<cmath>`: no real value for a non-positive argument. -/
def flog (log : α → α) (a : α) : Option α :=
  if a ≤ 0 then none else some (log a)

/-- The expression `2.0 * rand() / (double)(RAND_MAX) - 1` for the output `k` of `rand()`. -/
def uniform (RAND_MAX : ℕ) (k : ℕ) : α :=
  2 * (k : α) / (RAND_MAX : α) - 1

/-- The `do … while (x*x+y*y >= 1.0)` loop of `gaussian_box_muller`: each round
reads two outputs of `rand()`; the loop leaves with the pair it read last and
the new position in the stream. -/
def box_muller_loop (RAND_MAX : ℕ) (u : ℕ → ℕ) : ℕ → ℕ → Option ((α × α) × ℕ)
  | 0, _ => none
  | fuel + 1, pos =>
    let x : α := uniform RAND_MAX (u pos)
    let y : α := uniform RAND_MAX (u (pos + 1))
    if x * x + y * y ≥ 1 then box_muller_loop RAND_MAX u fuel (pos + 2)
    else some ((x, y), pos + 2)

/-- The returned expression `x*sqrt(-2*log(x*x+y*y)/(x*x+y*y))`. -/
def box_muller_return (sqrt log : α → α) (x y : α) : Option α :=
  (flog log (x * x + y * y)).bind fun l =>
    (fdiv (-2 * l) (x * x + y * y)).bind fun q =>
      (fsqrt sqrt q).map fun w => x * w

/-- Function `gaussian_box_muller`: the variate (or `none` when it has no real value)
and the position of the uniform source afterwards. -/
def gaussian_box_muller (sqrt log : α → α) (RAND_MAX : ℕ) (u : ℕ → ℕ) (fuel pos : ℕ) :
    Option (Option α × ℕ) :=
  (box_muller_loop RAND_MAX u fuel pos).map fun a =>
    (box_muller_return sqrt log a.1.1 a.1.2, a.2)

/-- The `for` loop of `call_price`, with `n` rounds left; `payoff_sum` is the accumulator. -/
def call_price_loop (exp sqrt log : α → α) (RAND_MAX : ℕ) (u : ℕ → ℕ) (fuel : ℕ)
    (S_adjust K v T : α) : ℕ → Option α → ℕ → Option (Option α × ℕ)
  | 0, payoff_sum, pos => some (payoff_sum, pos)
  | n + 1, payoff_sum, pos =>
    match gaussian_box_muller sqrt log RAND_MAX u fuel pos with
    | none => none
    | some (gauss_bm, pos') =>
      let S_cur : Option α :=
        (fsqrt sqrt T).bind fun sT => gauss_bm.map fun g => S_adjust * exp (v * sT * g)
      call_price_loop exp sqrt log RAND_MAX u fuel S_adjust K v T n
        (payoff_sum.bind fun a => S_cur.map fun s => a + max (s - K) 0) pos'

/-- Function `call_price`: the loop runs `max N 0` rounds, then
`(payoff_sum / (double)(N)) * exp(-r*T)` is returned. -/
def call_price (exp sqrt log : α → α) (RAND_MAX : ℕ) (u : ℕ → ℕ) (fuel : ℕ)
    (N : ℤ) (S K r v T : α) (pos : ℕ) : Option (Option α × ℕ) :=
  let S_adjust : α := S * exp (T * (r - 0.5 * v * v))
  (call_price_loop exp sqrt log RAND_MAX u fuel S_adjust K v T N.toNat (some 0) pos).map
    fun a => ((a.1.bind fun s => fdiv s (N : α)).map fun q => q * exp (-r * T), a.2)

/-- The `for` loop of `put_price`. -/
def put_price_loop (exp sqrt log : α → α) (RAND_MAX : ℕ) (u : ℕ → ℕ) (fuel : ℕ)
    (S_adjust K v T : α) : ℕ → Option α → ℕ → Option (Option α × ℕ)
  | 0, payoff_sum, pos => some (payoff_sum, pos)
  | n + 1, payoff_sum, pos =>
    match gaussian_box_muller sqrt log RAND_MAX u fuel pos with
    | none => none
    | some (gauss_bm, pos') =>
      let S_cur : Option α :=
        (fsqrt sqrt T).bind fun sT => gauss_bm.map fun g => S_adjust * exp (v * sT * g)
      put_price_loop exp sqrt log RAND_MAX u fuel S_adjust K v T n
        (payoff_sum.bind fun a => S_cur.map fun s => a + max (K - s) 0) pos'

/-- Function `put_price`: the loop runs `max N 0` rounds, then
`(payoff_sum / (double)(N)) * exp(-r*T)` is returned. -/
def put_price (exp sqrt log : α → α) (RAND_MAX : ℕ) (u : ℕ → ℕ) (fuel : ℕ)
    (N : ℤ) (S K r v T : α) (pos : ℕ) : Option (Option α × ℕ) :=
  let S_adjust : α := S * exp (T * (r - 0.5 * v * v))
  (put_price_loop exp sqrt log RAND_MAX u fuel S_adjust K v T N.toNat (some 0) pos).map
    fun a => ((a.1.bind fun s => fdiv s (N : α)).map fun q => q * exp (-r * T), a.2)

/-! ### Vocabulary for the statements -/

/-- First coordinate of the `i`-th pair read from position `pos` on. -/
def pair_x (RAND_MAX : ℕ) (u : ℕ → ℕ) (pos i : ℕ) : α :=
  uniform RAND_MAX (u (pos + 2 * i))

/-- Second coordinate of the `i`-th pair read from position `pos` on. -/
def pair_y (RAND_MAX : ℕ) (u : ℕ → ℕ) (pos i : ℕ) : α :=
  uniform RAND_MAX (u (pos + 2 * i + 1))

/-- Squared radius `x*x+y*y` of the `i`-th pair read from position `pos` on. -/
def pair_s (RAND_MAX : ℕ) (u : ℕ → ℕ) (pos i : ℕ) : α :=
  pair_x RAND_MAX u pos i * pair_x RAND_MAX u pos i
    + pair_y RAND_MAX u pos i * pair_y RAND_MAX u pos i

/-- The variates of `n` successive invocations of `gaussian_box_muller` and the
position of the uniform source after the last one. -/
def draws (sqrt log : α → α) (RAND_MAX : ℕ) (u : ℕ → ℕ) (fuel : ℕ) :
    ℕ → ℕ → Option (List (Option α) × ℕ)
  | 0, pos => some ([], pos)
  | n + 1, pos =>
    (gaussian_box_muller sqrt log RAND_MAX u fuel pos).bind fun g =>
      (draws sqrt log RAND_MAX u fuel n g.2).map fun d => (g.1 :: d.1, d.2)

/-- One round of the accumulation `payoff_sum += payoff(S_cur)` on a variate. -/
def accumulate (exp sqrt : α → α) (payoff : α → α) (S_adjust v T : α)
    (payoff_sum gauss_bm : Option α) : Option α :=
  payoff_sum.bind fun a =>
    ((fsqrt sqrt T).bind fun sT => gauss_bm.map fun g => S_adjust * exp (v * sT * g)).map
      fun s => a + payoff s

end Model

end EuroVanillaMC

namespace EuroGreeks

variable {α : Type} [LinearOrderedField α]

end EuroGreeks

namespace EuroVanillaMC

/-! ## The rejection loop -/

section Loop

variable {α : Type} [LinearOrderedField α]

theorem pair_s_nonneg (RAND_MAX : ℕ) (u : ℕ → ℕ) (pos i : ℕ) :
    (0 : α) ≤ pair_s RAND_MAX u pos i := by
  unfold pair_s
  exact add_nonneg (mul_self_nonneg _) (mul_self_nonneg _)

end Loop

/-! ## The pricing loops in terms of the variates -/

section Pricing

variable {α : Type} [LinearOrderedField α]

theorem draws_length (sqrt log : α → α) (RAND_MAX : ℕ) (u : ℕ → ℕ) (fuel : ℕ) :
    ∀ (n pos : ℕ) (d : List (Option α) × ℕ),
      draws sqrt log RAND_MAX u fuel n pos = some d → d.1.length = n := by
  intro n
  induction n with
  | zero =>
    intro pos d h
    simp only [draws, Option.some.injEq] at h
    subst h
    rfl
  | succ n ih =>
    intro pos d h
    rw [draws] at h
    cases hg : gaussian_box_muller sqrt log RAND_MAX u fuel pos with
    | none => simp [hg] at h
    | some g =>
      rw [hg, Option.some_bind] at h
      cases hd : draws sqrt log RAND_MAX u fuel n g.2 with
      | none => simp [hd] at h
      | some d1 =>
        rw [hd, Option.map_some', Option.some.injEq] at h
        subst h
        simp [ih g.2 d1 hd]

theorem call_price_loop_eq_draws (exp sqrt log : α → α) (RAND_MAX : ℕ) (u : ℕ → ℕ)
    (fuel : ℕ) (S_adjust K v T : α) :
    ∀ (n : ℕ) (acc : Option α) (pos : ℕ),
      call_price_loop exp sqrt log RAND_MAX u fuel S_adjust K v T n acc pos
        = (draws sqrt log RAND_MAX u fuel n pos).map fun d =>
            (d.1.foldl (accumulate exp sqrt (fun s => max (s - K) 0) S_adjust v T) acc, d.2) := by
  intro n
  induction n with
  | zero => intro acc pos; simp [call_price_loop, draws]
  | succ n ih =>
    intro acc pos
    rw [call_price_loop, draws]
    cases hg : gaussian_box_muller sqrt log RAND_MAX u fuel pos with
    | none => simp
    | some g =>
      obtain ⟨g1, g2⟩ := g
      simp only [Option.some_bind, ih]
      cases draws sqrt log RAND_MAX u fuel n g2 with
      | none => simp
      | some d => simp [accumulate]

theorem put_price_loop_eq_draws (exp sqrt log : α → α) (RAND_MAX : ℕ) (u : ℕ → ℕ)
    (fuel : ℕ) (S_adjust K v T : α) :
    ∀ (n : ℕ) (acc : Option α) (pos : ℕ),
      put_price_loop exp sqrt log RAND_MAX u fuel S_adjust K v T n acc pos
        = (draws sqrt log RAND_MAX u fuel n pos).map fun d =>
            (d.1.foldl (accumulate exp sqrt (fun s => max (K - s) 0) S_adjust v T) acc, d.2) := by
  intro n
  induction n with
  | zero => intro acc pos; simp [put_price_loop, draws]
  | succ n ih =>
    intro acc pos
    rw [put_price_loop, draws]
    cases hg : gaussian_box_muller sqrt log RAND_MAX u fuel pos with
    | none => simp
    | some g =>
      obtain ⟨g1, g2⟩ := g
      simp only [Option.some_bind, ih]
      cases draws sqrt log RAND_MAX u fuel n g2 with
      | none => simp
      | some d => simp [accumulate]

end Pricing

section Frame

variable {α : Type} [LinearOrderedField α]

/-- C8: for every `N ≥ 0` and every position of the uniform source, `call_price`
and `put_price` leave the source where `N` successive invocations of
`gaussian_box_muller` leave it (one variate per path: the list of variates has
length `N`); that position does not depend on `S`, `K`, `r`, `v`, `T` or on the
payoff, so a call and a put started at the same position end at the same one. -/
theorem prices_consume_same_draws (exp sqrt log : α → α) (RAND_MAX : ℕ) (u : ℕ → ℕ)
    (fuel pos N : ℕ) (S K r v T S' K' r' v' T' : α) :
    (call_price exp sqrt log RAND_MAX u fuel (N : ℤ) S K r v T pos).map Prod.snd
        = (draws sqrt log RAND_MAX u fuel N pos).map Prod.snd ∧
    (put_price exp sqrt log RAND_MAX u fuel (N : ℤ) S' K' r' v' T' pos).map Prod.snd
        = (draws sqrt log RAND_MAX u fuel N pos).map Prod.snd ∧
    (∀ d, draws sqrt log RAND_MAX u fuel N pos = some d → d.1.length = N) ∧
    (call_price exp sqrt log RAND_MAX u fuel (N : ℤ) S K r v T pos).map Prod.snd
        = (put_price exp sqrt log RAND_MAX u fuel (N : ℤ) S' K' r' v' T' pos).map Prod.snd := by
  have hc : (call_price exp sqrt log RAND_MAX u fuel (N : ℤ) S K r v T pos).map Prod.snd
      = (draws sqrt log RAND_MAX u fuel N pos).map Prod.snd := by
    simp only [call_price, call_price_loop_eq_draws, Int.toNat_ofNat, Option.map_map]
    rfl
  have hp : (put_price exp sqrt log RAND_MAX u fuel (N : ℤ) S' K' r' v' T' pos).map Prod.snd
      = (draws sqrt log RAND_MAX u fuel N pos).map Prod.snd := by
    simp only [put_price, put_price_loop_eq_draws, Int.toNat_ofNat, Option.map_map]
    rfl
  exact ⟨hc, hp, fun d hd => draws_length sqrt log RAND_MAX u fuel N pos d hd, hc.trans hp.symm⟩

end Frame

end EuroVanillaMC

namespace EuroGreeks

end EuroGreeks
